import Mathlib

/-!
# Verification of the document-processing pipeline with market-price enrichment

Shallow embedding, in Lean 4, of the core of the `alcohol-code` repository:

* `src/services/perplexity_service.py` — the market-response parser
  (`PerplexityService._parse_response`);
* `src/utils/item_extended.py` — the enrichment orchestrator (`extend_items`);
* `src/models/document_items_extended.py` — the extended-item validators;
* `src/handlers/user/document.py` — the processing pipeline
  (`_process_document_pipeline`, `_process_with_google_services`,
  `_process_with_local_storage`, `process_document_photo`,
  `process_document_file`);
* `src/services/google_service.py` — `GoogleService.add_data_to_spreadsheet`;
* the `asyncio.Semaphore(max_concurrent)` discipline of `extend_items`,
  as a small-step transition system.

Python strings are modelled as `List Char` (Unicode code points, which is what
Python's `len`, `strip`, `split`, `in` and indexing operate on).  Python floats
produced by the parser are modelled as `ℚ`: every number the parser builds is a
finite decimal, and none of the verified properties depend on binary rounding.
External effects (HTTP calls, file I/O, the Telegram transport) are oracles:
each fallible call site takes its outcome from an environment record, and the
calls actually issued are collected in an explicit event list.
-/

namespace AlcoholCode

/-! ## Python string primitives -/

/-- Python `str.strip()` on a list of code points: drop whitespace from both
ends.  (Python strips a slightly larger whitespace class than
`Char.isWhitespace`; the difference — form feed, vertical tab, unicode spaces —
is irrelevant to every string this development touches.) -/
def pyStrip (cs : List Char) : List Char :=
  ((cs.dropWhile Char.isWhitespace).reverse.dropWhile Char.isWhitespace).reverse

/-- Python `str.split(sep)` for a one-character separator: no collapsing of
empty fields, `split` of the empty string is `[""]`. -/
def splitOnChar (sep : Char) : List Char → List (List Char)
  | [] => [[]]
  | c :: rest =>
    let r := splitOnChar sep rest
    if c == sep then [] :: r
    else
      match r with
      | [] => [[c]]
      | h :: t => (c :: h) :: t

/-- Python `sep.join(parts)`. -/
def joinWith (sep : List Char) : List (List Char) → List Char
  | [] => []
  | [x] => x
  | x :: xs => x ++ sep ++ joinWith sep xs

/-- Python `line.split(":")[-1]`: the text after the last colon
(the whole line when there is no colon). -/
def afterLastColon (cs : List Char) : List Char :=
  (splitOnChar ':' cs).getLastD cs

/-- Python `line.split(":", 1)[-1]`: the text after the first colon
(the whole line when there is no colon). -/
def afterFirstColon (cs : List Char) : List Char :=
  match splitOnChar ':' cs with
  | [] => cs
  | [x] => x
  | _ :: xs => joinWith [':'] xs

/-- Python `str.upper()` restricted to the alphabets `_parse_response`
compares against: ASCII letters and the basic Cyrillic block
(`а`..`я` = U+0430..U+044F mapping to U+0410..U+042F, plus `ё` → `Ё`).
All other code points are left unchanged. -/
def pyUpperChar (c : Char) : Char :=
  if 'a' ≤ c ∧ c ≤ 'z' then Char.ofNat (c.toNat - 32)
  else if 'а' ≤ c ∧ c ≤ 'я' then Char.ofNat (c.toNat - 32)
  else if c = 'ё' then 'Ё'
  else c

/-- Python `str.upper()` over a list of code points. -/
def pyUpperL (cs : List Char) : List Char := cs.map pyUpperChar

/-- Boolean list-prefix test (computable, structural). -/
def isPrefixCh : List Char → List Char → Bool
  | [], _ => true
  | _ :: _, [] => false
  | a :: as, b :: bs => a == b && isPrefixCh as bs

/-- Python `needle in hay` (substring containment) on code-point lists. -/
def isInfixCh (needle : List Char) : List Char → Bool
  | [] => needle.isEmpty
  | c :: rest => isPrefixCh needle (c :: rest) || isInfixCh needle rest

/-- First index of an element equal to `target`, Python `list.index` made
total: `none` models the `ValueError` that `list.index` raises when the
element is absent. -/
def findIndexEq (target : List Char) : List (List Char) → Option ℕ
  | [] => none
  | h :: t => if h == target then some 0 else (findIndexEq target t).map (· + 1)

/-! ## The market-response parser (`PerplexityService._parse_response`) -/

/-- Digits of a numeral read left to right, Python `float`'s integer part. -/
def natOfDigits (cs : List Char) : ℕ :=
  cs.foldl (fun a c => 10 * a + (c.toNat - 48)) 0

/-- Python `float(s)` on a string that contains only digits and dots (the
only alphabet the parser ever feeds it): succeeds on `digits`, `digits.`,
`.digits` and `digits.digits`; raises (`none`) on the empty string, a bare
dot, or more than one dot. -/
def pyFloat (cs : List Char) : Option ℚ :=
  match splitOnChar '.' cs with
  | [ds] => if ds = [] then none else some (mkRat (natOfDigits ds) 1)
  | [ip, fp] =>
    if ip = [] ∧ fp = [] then none
    else some (mkRat (natOfDigits ip * 10 ^ fp.length + natOfDigits fp) (10 ^ fp.length))
  | _ => none

/-- The `price_str` value as built by lines 117–121 / 132–135 of
perplexity_service.py: the text after the last colon, stripped, with every
character other than digits, dots and commas removed, and commas replaced by
dots. -/
def priceDigits (line : List Char) : List Char :=
  ((pyStrip (afterLastColon line)).filter
      fun c => c.isDigit || c == '.' || c == ',').map
    fun c => if c == ',' then '.' else c

/-- The price-extraction block of `_parse_response` (lines 117–123 / 132–137):
`float(price_str)` guarded by `if price_str`; `none` both when the filtered
string is empty and when `float` raises (caught and logged, leaving the
previous value in place). -/
def parsePriceLine (line : List Char) : Option ℚ :=
  if priceDigits line = [] then none else pyFloat (priceDigits line)

/-- The label markers of `_parse_response`, already upper-case in the source. -/
def avgLabelRu : List Char := "СРЕДНЯЯ ЦЕНА:".data

/-- English average-price label. -/
def avgLabelEn : List Char := "AVERAGE PRICE:".data

/-- Russian minimum-price label. -/
def minLabelRu : List Char := "МИНИМАЛЬНАЯ ЦЕНА:".data

/-- English minimum-price label. -/
def minLabelEn : List Char := "MIN PRICE:".data

/-- Russian analysis label. -/
def anaLabelRu : List Char := "АНАЛИЗ:".data

/-- English analysis label. -/
def anaLabelEn : List Char := "ANALYSIS:".data

/-- Python `"СРЕДНЯЯ ЦЕНА:" in line.upper() or "AVERAGE PRICE:" in line.upper()`. -/
def lineMatchesAvg (line : List Char) : Bool :=
  isInfixCh avgLabelRu (pyUpperL line) || isInfixCh avgLabelEn (pyUpperL line)

/-- Python `"МИНИМАЛЬНАЯ ЦЕНА:" in line.upper() or "MIN PRICE:" in line.upper()`. -/
def lineMatchesMin (line : List Char) : Bool :=
  isInfixCh minLabelRu (pyUpperL line) || isInfixCh minLabelEn (pyUpperL line)

/-- Python `"АНАЛИЗ:" in line.upper() or "ANALYSIS:" in line.upper()`. -/
def lineMatchesAna (line : List Char) : Bool :=
  isInfixCh anaLabelRu (pyUpperL line) || isInfixCh anaLabelEn (pyUpperL line)

/-- The result dictionary of `_parse_response`:
`{"average_price": ..., "min_price": ..., "analysis": ...}`. -/
structure MarketParse where
  average_price : Option ℚ := none
  min_price : Option ℚ := none
  analysis : List Char := []
deriving DecidableEq

/-- The analysis text accumulated by lines 145–153 of perplexity_service.py:
the text after the first colon of the matched line, stripped, and — when any
raw line follows position `idx` — a space plus the stripped non-empty
following lines joined by single spaces. -/
def anaText (allLines : List (List Char)) (line : List Char) (idx : ℕ) :
    List Char :=
  if allLines.drop (idx + 1) = [] then pyStrip (afterFirstColon line)
  else pyStrip (afterFirstColon line) ++ [' '] ++
    joinWith [' '] (((allLines.drop (idx + 1)).map pyStrip).filter (· ≠ []))

/-- One iteration of the `for line in lines` loop of `_parse_response`
(`line` is rebound to its stripped form at the top of the loop body).
The `Except` error carries the state at the moment the uncaught
`lines.index(line)` `ValueError` is raised (the only statement in the loop
body that can raise past the inner `try` blocks). -/
def parseStepLine (allLines : List (List Char)) (st : MarketParse)
    (raw : List Char) : Except MarketParse MarketParse :=
  if lineMatchesAvg (pyStrip raw) then
    .ok (match parsePriceLine (pyStrip raw) with
      | some q => { st with average_price := some q }
      | none => st)
  else if lineMatchesMin (pyStrip raw) then
    .ok (match parsePriceLine (pyStrip raw) with
      | some q => { st with min_price := some q }
      | none => st)
  else if lineMatchesAna (pyStrip raw) then
    match findIndexEq (pyStrip raw) allLines with
    | none => .error st
    | some idx => .ok { st with analysis := anaText allLines (pyStrip raw) idx }
  else .ok st

/-- Model of `PerplexityService._parse_response` (perplexity_service.py lines 86–163):
split the stripped response on newlines, fold the line loop, and apply both
fallbacks — the outer `except` (analysis becomes the whole stripped input,
prices parsed so far are kept) and the `if not result["analysis"]` check. -/
def parse_response (input : List Char) : MarketParse :=
  match (splitOnChar '\n' (pyStrip input)).foldl
      (fun acc raw => acc.bind fun st =>
        parseStepLine (splitOnChar '\n' (pyStrip input)) st raw)
      (Except.ok {}) with
  | .error st => { st with analysis := pyStrip input }
  | .ok st => if st.analysis = [] then { st with analysis := pyStrip input } else st

/-! ## Items and the enrichment orchestrator (`utils/item_extended.py`) -/

/-- The `Sheet` enum of enums/sheets.py: the two document categories. -/
inductive Sheet
  | jobs
  | materials
deriving DecidableEq

/-- A line item (`models/document_analysis.py` `DocumentItem`, the field set
shared by `GoodsDocumentItem` and `JobsDocumentItem`).  The `jobs` variant
lives in `models/document_jobs.py`, which is absent from the sources;
modelled from the spec: the two variants are "one shape with a category tag",
"differing only in default values", and defaults play no role here because
`extend_items` copies every field explicitly. -/
structure DocItem where
  name : String
  quantity : ℚ
  unit : Option String
  price : ℚ
  total : ℚ

/-- The dictionary produced by `PerplexityService.search_market_price`,
as consumed by `extend_items` (`market_data.get(...)`). -/
structure MarketData where
  average_price : Option ℚ := none
  min_price : Option ℚ := none
  analysis : String := ""

/-- An extended line item (`models/document_items_extended.py`,
`GoodsDocumentItemExtended` / `JobsDocumentItemExtended`), tagged with its
category.  `unit` is a `String` because the inherited `handle_none_unit`
validator replaces `None` by `"шт"` on construction (document_goods.py;
for the jobs variant modelled from the spec: same default-unit rule,
`"unit-or-default 'шт'"`). -/
structure ExtItem where
  category : Sheet
  name : String
  quantity : ℚ
  unit : String
  price : ℚ
  total : ℚ
  average_market_price : Option ℚ
  min_market_price : Option ℚ
  market_analysis : Option String

/-- Model of `validate_market_analysis` (document_items_extended.py lines 65–86):
`None` stays `None`; otherwise the value is stripped, dropped (`None`) when
empty or shorter than 10 code points, kept stripped otherwise. -/
def validate_market_analysis : Option String → Option String
  | none => none
  | some s =>
    let t := pyStrip s.data
    if t.length < 10 then none else some (String.mk t)

/-- Model of `validate_market_prices` (document_items_extended.py lines 44–63): the
pydantic validator raises on a present negative price; `true` means the
constructor does not raise. -/
def priceValid : Option ℚ → Bool
  | none => true
  | some q => decide (0 ≤ q)

/-- Construction of a `GoodsDocumentItemExtended` / `JobsDocumentItemExtended`
with the pydantic validators applied: `Except.error` models the `ValueError`
a negative market price raises; the analysis field is normalised by
`validate_market_analysis`. -/
def mkExtended (cat : Sheet) (it : DocItem) (avg mn : Option ℚ)
    (ana : Option String) : Except Unit ExtItem :=
  if priceValid avg && priceValid mn then
    .ok ⟨cat, it.name, it.quantity, it.unit.getD "шт", it.price, it.total,
      avg, mn, validate_market_analysis ana⟩
  else .error ()

/-- Model of `process_single_item` (item_extended.py lines 73–177), with the lookup's
outcome passed in: on a successful lookup the extended model is built from the
returned market data (`market_analysis=analysis if analysis else None`); any
exception — a failed lookup or a validator `ValueError` — is caught and the
no-market-data model is built instead; that fallback construction re-raises if
it fails (it cannot: every field it passes is valid). -/
def process_single_item (cat : Sheet) (it : DocItem)
    (res : Except Unit MarketData) : Except Unit ExtItem :=
  match res with
  | .error _ => mkExtended cat it none none none
  | .ok md =>
    let ana : Option String := if md.analysis = "" then none else some md.analysis
    match mkExtended cat it md.average_price md.min_price ana with
    | .ok e => .ok e
    | .error _ => mkExtended cat it none none none

/-- The task list `[process_single_item(item, idx) for idx, item in
enumerate(items)]` (item_extended.py line 180), with `lookup i item` the
outcome of the i-th `search_market_price` call. -/
def processTasks (cat : Sheet) (lookup : ℕ → DocItem → Except Unit MarketData) :
    ℕ → List DocItem → List (Except Unit ExtItem)
  | _, [] => []
  | i, it :: rest =>
    process_single_item cat it (lookup i it) :: processTasks cat lookup (i + 1) rest

/-- Model of `asyncio.gather(*tasks, return_exceptions=False)`: the results in task
order, or an escaped exception failing the whole batch. -/
def gatherExcept : List (Except Unit ExtItem) → Except Unit (List ExtItem)
  | [] => .ok []
  | x :: xs =>
    match x with
    | .error _ => .error ()
    | .ok a =>
      match gatherExcept xs with
      | .ok l => .ok (a :: l)
      | .error _ => .error ()

/-- Result of one `extend_items` call: the returned value (or raised error)
together with the indices of the items for which `search_market_price` was
invoked. -/
structure ExtendOutcome where
  result : Except String (List ExtItem)
  calls : List ℕ

/-- Model of `extend_items` (item_extended.py lines 20–202).  The `document_type`
parameter is dynamically typed in Python; `Option Sheet` models it, `none`
standing for any value that is not `Sheet.MATERIALS` or `Sheet.JOBS` (the
pipeline really can pass `None`).  The empty-list check precedes the
category check; an invalid category raises `ValueError` before any task is
created; otherwise every item is scheduled and gathered. -/
def extend_items (items : List DocItem) (document_type : Option Sheet)
    (lookup : ℕ → DocItem → Except Unit MarketData) : ExtendOutcome :=
  if items.isEmpty then ⟨.ok [], []⟩
  else
    match document_type with
    | none => ⟨.error "Неподдерживаемый тип документа", []⟩
    | some cat =>
      match gatherExcept (processTasks cat lookup 0 items) with
      | .ok l => ⟨.ok l, List.range items.length⟩
      | .error _ => ⟨.error "Критическая ошибка при обогащении элементов", List.range items.length⟩

/-! ## The processing pipeline (`handlers/user/document.py`) -/

/-- The `ProcessingResult` model of models/processing_result.py.  (The
`selected_project` / `document_type` keyword arguments some call sites pass
are silently dropped by pydantic — the model declares no such fields — so
they do not appear here.)  Paths are modelled as strings. -/
structure ProcessingResult where
  success : Bool
  analysis : Option (List (DocItem ⊕ ExtItem)) := none
  error_message : Option String := none
  google_sheet_url : Option String := none
  local_excel_path : Option String := none
  local_json_path : Option String := none
  is_local_processing : Bool := false

/-- The external calls the pipeline can issue, in program order. -/
inductive PEvent
  | geminiCall
  | perplexityCall (idx : ℕ)
  | gClientCreate
  | gOpenSheet (id : String)
  | gAppendRows (id : String)
  | excelWrite
  | jsonWrite
deriving DecidableEq

/-- Outcomes of every fallible external interaction of one pipeline run.
Each field is the oracle for one call site in `handlers/user/document.py` /
`services/google_service.py`. -/
structure PipelineEnv where
  /-- True when `gemini_service` is non-`None` (document.py line 532). -/
  geminiConfigured : Bool
  /-- the `analyze_*` call raises (caught by the pipeline's outer `except`). -/
  analysisRaises : Bool
  /-- items of the returned analysis; `none` models a falsy analysis
  (document.py line 548). -/
  analysisItems : Option (List DocItem)
  /-- True when `perplexity_service` is non-`None` (document.py line 555). -/
  perplexityConfigured : Bool
  /-- the `document_type` value held in FSM state (may be `None`). -/
  documentType : Option Sheet
  /-- outcome of the i-th `search_market_price` call. -/
  lookup : ℕ → DocItem → Except Unit MarketData
  /-- the project selected in the conversation (may be `None`). -/
  selectedProject : Option String
  /-- The `sheets_mapping_service.get_sheet_id` mapping (sheets_mapping_service.py). -/
  mapping : String → Option String
  /-- True when `GoogleService._get_sheets_client` succeeds (google_service.py 54–57). -/
  gsClientOk : Bool
  /-- True when `client.open_by_key` and the worksheet operations succeed. -/
  gsOpenOk : Bool
  /-- the url returned after a successful append (`spreadsheet.url`), or
  `none` when the append itself fails. -/
  gsRemoteUrl : Option String
  /-- an exception escapes the body of `_process_with_local_storage`
  outside the two helpers (caught by its own `except`). -/
  localWrapRaises : Bool
  /-- The `_create_local_excel` result (`None` on failure). -/
  excelPath : Option String
  /-- The `_save_local_json` result (`None` on failure). -/
  jsonPath : Option String

/-- Model of `spreadsheet_id = None; if selected_project: spreadsheet_id =
sheets_mapping_service.get_sheet_id(selected_project)`
(document.py lines 654–658). -/
def resolved_sheet_id (env : PipelineEnv) : Option String :=
  match env.selectedProject with
  | none => none
  | some p => if p = "" then none else env.mapping p

/-- Python truthiness of the resolved id: `None` and `""` are falsy — both
`if not spreadsheet_id` (google_service.py line 60) and the unresolved-project
warning treat them alike. -/
def sheetIdFalsy : Option String → Bool
  | none => true
  | some s => s == ""

/-- Model of `GoogleService.add_data_to_spreadsheet` (google_service.py lines 32–139):
client creation, the `if not spreadsheet_id` guard, then the remote open /
append, every failure caught and converted to `None`.  Returns the url (or
`None`) and the remote interactions performed. -/
def add_data_to_spreadsheet (env : PipelineEnv) (sheetId : Option String) :
    Option String × List PEvent :=
  if !env.gsClientOk then (none, [.gClientCreate])
  else
    match sheetId with
    | none => (none, [.gClientCreate])
    | some sid =>
      if sid = "" then (none, [.gClientCreate])
      else if !env.gsOpenOk then (none, [.gClientCreate, .gOpenSheet sid])
      else (env.gsRemoteUrl, [.gClientCreate, .gOpenSheet sid, .gAppendRows sid])

/-- Model of `_process_with_local_storage` (document.py lines 712–783): Excel artifact,
then JSON artifact, each `None` on failure; failure of either is fatal for the
request; both present gives the local success result with
`is_local_processing=True`. -/
def process_with_local_storage (env : PipelineEnv)
    (analysis : List (DocItem ⊕ ExtItem)) : ProcessingResult × List PEvent :=
  if env.localWrapRaises then
    ({ success := false, error_message := some "Ошибка локального сохранения" }, [])
  else
    match env.excelPath with
    | none =>
      ({ success := false, error_message := some "Не удалось создать Excel таблицу" },
        [.excelWrite])
    | some xp =>
      match env.jsonPath with
      | none =>
        ({ success := false, error_message := some "Не удалось сохранить JSON файл" },
          [.excelWrite, .jsonWrite])
      | some jp =>
        ({ success := true, analysis := some analysis,
           local_excel_path := some xp, local_json_path := some jp,
           is_local_processing := true },
          [.excelWrite, .jsonWrite])

/-- Model of `_process_with_google_services` (document.py lines 631–709): resolve the
project's spreadsheet id, call `add_data_to_spreadsheet`, fall back to local
storage when the call returns a falsy url; any exception inside the `try` —
in particular the `document_type.value` attribute access on a `None`
document type, evaluated before the append call — also falls back to local
storage. -/
def process_with_google_services (env : PipelineEnv)
    (analysis : List (DocItem ⊕ ExtItem)) : ProcessingResult × List PEvent :=
  match env.documentType with
  | none => process_with_local_storage env analysis
  | some _ =>
    match (add_data_to_spreadsheet env (resolved_sheet_id env)).1 with
    | none =>
      ((process_with_local_storage env analysis).1,
        (add_data_to_spreadsheet env (resolved_sheet_id env)).2 ++
          (process_with_local_storage env analysis).2)
    | some url =>
      if url = "" then
        ((process_with_local_storage env analysis).1,
          (add_data_to_spreadsheet env (resolved_sheet_id env)).2 ++
            (process_with_local_storage env analysis).2)
      else
        ({ success := true, analysis := some analysis,
           google_sheet_url := some url },
          (add_data_to_spreadsheet env (resolved_sheet_id env)).2)

/-- Step 1.5 of `_process_document_pipeline` (document.py lines 554–591):
when a Perplexity service is configured and the analysis has items, run
`extend_items` and replace the analysis items with the enriched ones; if the
orchestrator raises (the `except` on line 577), continue with the original
items; otherwise skip enrichment.  Returns the item list the rest of the
pipeline sees and the market-client calls issued. -/
def enrichStep (env : PipelineEnv) (items0 : List DocItem) :
    List (DocItem ⊕ ExtItem) × List PEvent :=
  if env.perplexityConfigured && !items0.isEmpty then
    match (extend_items items0 env.documentType env.lookup).result with
    | .ok l =>
      (l.map Sum.inr,
        (extend_items items0 env.documentType env.lookup).calls.map
          PEvent.perplexityCall)
    | .error _ =>
      (items0.map Sum.inl,
        (extend_items items0 env.documentType env.lookup).calls.map
          PEvent.perplexityCall)
  else (items0.map Sum.inl, [])

/-- Model of `_process_document_pipeline` (document.py lines 498–607): fail fast when
no Gemini service is configured; analyse; enrich when a Perplexity service is
configured and the analysis has items, continuing with the original items if
the orchestrator raises; then persist via the Google services step. -/
def process_document_pipeline (env : PipelineEnv) :
    ProcessingResult × List PEvent :=
  if !env.geminiConfigured then
    ({ success := false,
       error_message := some "Сервис анализа документов (Gemini) недоступен" }, [])
  else if env.analysisRaises then
    ({ success := false, error_message := some "Внутренняя ошибка" }, [.geminiCall])
  else
    match env.analysisItems with
    | none =>
      ({ success := false,
         error_message := some "Не удалось проанализировать документ" }, [.geminiCall])
    | some items0 =>
      ((process_with_google_services env (enrichStep env items0).1).1,
        PEvent.geminiCall :: ((enrichStep env items0).2 ++
          (process_with_google_services env (enrichStep env items0).1).2))

/-! ## The upload handlers (`process_document_photo` / `process_document_file`) -/

/-- Outcomes of the fallible steps of one upload-handler run, in program
order.  Every `await` against the chat transport or the FSM storage can
raise; each flag is one call site inside the handler's `try` block. -/
structure HandlerEnv where
  /-- the "processing…" notice (`message.answer`) raises. -/
  answerRaises : Bool
  /-- True when `bot.get_file` raises. -/
  getFileRaises : Bool
  /-- True when `bot.download_file` raises (no temp file is left behind). -/
  downloadRaises : Bool
  /-- True when `state.get_data()` — executed after the download — raises. -/
  getDataRaises : Bool
  /-- the pipeline's own oracle. -/
  pipelineEnv : PipelineEnv
  /-- True when `file_path.unlink()` succeeds (its failure is caught and only logged). -/
  unlinkOk : Bool

/-- What one handler run leaves behind: whether the temporary downloaded file
still exists, and the pipeline result if the run got that far. -/
structure HandlerOutcome where
  tempFileRemains : Bool
  result : Option ProcessingResult

/-- Model of `process_document_photo` (document.py lines 209–280).  The whole body is
one `try/except`; the `unlink` sits on the straight-line path after the
pipeline call, not in a `finally`, so an exception raised between the
download and the cleanup (e.g. by `state.get_data()`) jumps to the handler's
`except` block, which does not remove the file. -/
def process_document_photo (env : HandlerEnv) : HandlerOutcome :=
  if env.answerRaises then ⟨false, none⟩
  else if env.getFileRaises then ⟨false, none⟩
  else if env.downloadRaises then ⟨false, none⟩
  else if env.getDataRaises then ⟨true, none⟩
  else
    let r := process_document_pipeline env.pipelineEnv
    ⟨!env.unlinkOk, some r.1⟩

/-- Model of `process_document_file` (document.py lines 283–354): identical control
flow to `process_document_photo` (the differences — `_is_image_file`, the
file-name computation — are pure and cannot raise before the download). -/
def process_document_file (env : HandlerEnv) : HandlerOutcome :=
  if env.answerRaises then ⟨false, none⟩
  else if env.getFileRaises then ⟨false, none⟩
  else if env.downloadRaises then ⟨false, none⟩
  else if env.getDataRaises then ⟨true, none⟩
  else
    let r := process_document_pipeline env.pipelineEnv
    ⟨!env.unlinkOk, some r.1⟩

/-! ## The bounded-concurrency discipline of `extend_items`

`extend_items` wraps the whole body of every `process_single_item` task in
`async with semaphore` where `semaphore = asyncio.Semaphore(max_concurrent)`
(item_extended.py lines 70–96) and schedules one task per item
(lines 179–184).  The transition system below is that discipline: a task is
`waiting` until it acquires a permit, `inflight` while it holds one (the
market-client call is in flight), and `done` after it releases it. -/

/-- Status of one enrichment task. -/
inductive TStatus
  | waiting
  | inflight
  | done
deriving DecidableEq

/-- Scheduler state: free permits of the semaphore plus one status per task. -/
structure SemState where
  avail : ℕ
  tasks : List TStatus
deriving DecidableEq

/-- Initial state: `asyncio.Semaphore(k)` fresh, one waiting task per item. -/
def semInit (k n : ℕ) : SemState :=
  ⟨k, List.replicate n TStatus.waiting⟩

/-- One scheduler step: a waiting task acquires a permit when one is free
(`async with semaphore` entry), or an in-flight task completes and releases
its permit (exit of the `async with` block). -/
inductive SemStep : SemState → SemState → Prop
  | acquire (s : SemState) (i : ℕ) (h : s.tasks.get? i = some .waiting)
      (ha : 0 < s.avail) :
      SemStep s ⟨s.avail - 1, s.tasks.set i .inflight⟩
  | release (s : SemState) (i : ℕ) (h : s.tasks.get? i = some .inflight) :
      SemStep s ⟨s.avail + 1, s.tasks.set i .done⟩

/-- Reachability from a state by scheduler steps. -/
inductive SemReach (s₀ : SemState) : SemState → Prop
  | refl : SemReach s₀ s₀
  | step {s t : SemState} : SemReach s₀ s → SemStep s t → SemReach s₀ t

/-- Number of market-client calls currently in flight. -/
def inflightCount (s : SemState) : ℕ :=
  s.tasks.countP (· == TStatus.inflight)

/-- A state from which no scheduler step is possible. -/
def SemStuck (s : SemState) : Prop := ∀ t, ¬ SemStep s t

/-! ## Lemmas about the enrichment orchestrator -/

/-- The i-th extended item carries the i-th input item's document fields
(with the `None`-unit default applied) and the category tag. -/
def matchesItem (cat : Sheet) (it : DocItem) (e : ExtItem) : Prop :=
  e.category = cat ∧ e.name = it.name ∧ e.quantity = it.quantity ∧
  e.unit = it.unit.getD "шт" ∧ e.price = it.price ∧ e.total = it.total

/-- The fallback item `process_single_item` builds when the lookup (or a
price validator) raised. -/
def noDataItem (cat : Sheet) (it : DocItem) : ExtItem :=
  ⟨cat, it.name, it.quantity, it.unit.getD "шт", it.price, it.total,
    none, none, none⟩

/-- The item built on the success path from returned market data. -/
def dataItem (cat : Sheet) (it : DocItem) (md : MarketData) : ExtItem :=
  ⟨cat, it.name, it.quantity, it.unit.getD "шт", it.price, it.total,
    md.average_price, md.min_price,
    validate_market_analysis
      (if md.analysis = "" then none else some md.analysis)⟩

theorem process_single_item_spec (cat : Sheet) (it : DocItem)
    (res : Except Unit MarketData) :
    ∃ e, process_single_item cat it res = .ok e ∧ matchesItem cat it e ∧
      (res = .error () →
        e.average_market_price = none ∧ e.min_market_price = none ∧
        e.market_analysis = none) ∧
      (∀ md, res = .ok md → (pyStrip md.analysis.data).length < 10 →
        e.market_analysis = none) := by
  cases res with
  | error u =>
    cases u
    refine ⟨noDataItem cat it, ?_, ?_, ?_, ?_⟩
    · simp [process_single_item, mkExtended, priceValid, noDataItem,
        validate_market_analysis]
    · simp [matchesItem, noDataItem]
    · intro _
      simp [noDataItem]
    · intro md hmd
      cases hmd
  | ok md =>
    by_cases hv : (priceValid md.average_price && priceValid md.min_price) = true
    · refine ⟨dataItem cat it md, ?_, ?_, ?_, ?_⟩
      · simp [process_single_item, mkExtended, hv, dataItem]
      · simp [matchesItem, dataItem]
      · intro h; cases h
      · intro md' hmd' hshort
        cases hmd'
        by_cases ha : md.analysis = ""
        · simp [dataItem, ha, validate_market_analysis]
        · simp [dataItem, ha, validate_market_analysis, hshort]
    · simp only [Bool.not_eq_true] at hv
      refine ⟨noDataItem cat it, ?_, ?_, ?_, ?_⟩
      · have hn : priceValid none = true := rfl
        simp [process_single_item, mkExtended, hv, hn, noDataItem,
          validate_market_analysis]
      · simp [matchesItem, noDataItem]
      · intro h; cases h
      · intro md' hmd' hshort
        simp [noDataItem]

theorem processTasks_gather_spec (cat : Sheet)
    (lookup : ℕ → DocItem → Except Unit MarketData) (items : List DocItem)
    (i₀ : ℕ) :
    ∃ l, gatherExcept (processTasks cat lookup i₀ items) = .ok l ∧
      l.length = items.length ∧
      ∀ j it, items.get? j = some it →
        ∃ e, l.get? j = some e ∧
          process_single_item cat it (lookup (i₀ + j) it) = .ok e := by
  induction items generalizing i₀ with
  | nil =>
    exact ⟨[], rfl, rfl, fun j it hj => by simp at hj⟩
  | cons it rest ih =>
    obtain ⟨e, he, -, -, -⟩ := process_single_item_spec cat it (lookup i₀ it)
    obtain ⟨l, hl, hlen, hidx⟩ := ih (i₀ + 1)
    refine ⟨e :: l, ?_, by simp [hlen], ?_⟩
    · rw [processTasks]
      rw [he]
      simp [gatherExcept, hl]
    · intro j it' hj
      cases j with
      | zero =>
        simp only [List.get?] at hj
        cases hj
        exact ⟨e, rfl, by simpa using he⟩
      | succ j =>
        obtain ⟨e', he', hps⟩ := hidx j it' (by simpa using hj)
        refine ⟨e', by simpa using he', ?_⟩
        have harith : i₀ + 1 + j = i₀ + (j + 1) := by omega
        rwa [harith] at hps

/-- C1. For every item list (any category) and any mix of per-item lookup
success and failure, `extend_items` returns (does not raise) exactly N
extended items; the j-th output carries the j-th input's fields; a failed
lookup leaves that item's market fields absent; no single failure fails the
batch. -/
theorem extend_items_batch (items : List DocItem) (cat : Sheet)
    (lookup : ℕ → DocItem → Except Unit MarketData) :
    ∃ l, (extend_items items (some cat) lookup).result = .ok l ∧
      l.length = items.length ∧
      ∀ j it, items.get? j = some it →
        ∃ e, l.get? j = some e ∧ matchesItem cat it e ∧
          (lookup j it = .error () →
            e.average_market_price = none ∧ e.min_market_price = none ∧
            e.market_analysis = none) := by
  cases items with
  | nil =>
    exact ⟨[], rfl, rfl, fun j it hj => by simp at hj⟩
  | cons it₀ rest =>
    obtain ⟨l, hl, hlen, hidx⟩ :=
      processTasks_gather_spec cat lookup (it₀ :: rest) 0
    simp only [Nat.zero_add] at hidx
    refine ⟨l, ?_, hlen, ?_⟩
    · simp [extend_items, hl]
    · intro j it hj
      obtain ⟨e, he, hps⟩ := hidx j it hj
      obtain ⟨e', he', hm, herr, -⟩ :=
        process_single_item_spec cat it (lookup j it)
      rw [hps] at he'
      cases he'
      exact ⟨e, he, hm, herr⟩

/-- C1 witness: a two-item batch, first lookup succeeding, second failing. -/
theorem extend_items_batch_witness :
    ∃ l, (extend_items
        [⟨"Цемент М500", 10, some "мешок", 250, 2500⟩,
         ⟨"Доставка", 1, none, 2000, 2000⟩]
        (some Sheet.materials)
        (fun i _ => if i = 0 then
            .ok ⟨some 280, some 240, "анализ рынка с источниками"⟩
          else .error ())).result = .ok l ∧
      l.length = 2 ∧
      ∀ j it,
        ([⟨"Цемент М500", 10, some "мешок", 250, 2500⟩,
          ⟨"Доставка", 1, none, 2000, 2000⟩] : List DocItem).get? j = some it →
        ∃ e, l.get? j = some e ∧ matchesItem Sheet.materials it e ∧
          ((fun (i : ℕ) (_ : DocItem) => if i = 0 then
              (.ok ⟨some 280, some 240, "анализ рынка с источниками"⟩ :
                Except Unit MarketData)
            else .error ()) j it = .error () →
            e.average_market_price = none ∧ e.min_market_price = none ∧
            e.market_analysis = none) :=
  extend_items_batch _ _ _

/-- C4 counterexample: with an empty item list and an invalid document
category, `extend_items` returns `[]` (and makes no calls) instead of raising
`ValueError` — the empty-list check precedes the category check
(item_extended.py lines 55–63). -/
theorem extend_items_empty_invalid_counterexample :
    (extend_items [] none (fun _ _ => .error ())).result = .ok [] ∧
    (extend_items [] none (fun _ _ => .error ())).calls = [] :=
  ⟨rfl, rfl⟩

/-- C4 amended: for every NON-empty item list and a category value other
than `Sheet.MATERIALS` / `Sheet.JOBS`, `extend_items` raises `ValueError`
before any market-client call is made; an empty list instead returns `[]`
without raising, whatever the category. -/
theorem extend_items_invalid_category (items : List DocItem)
    (lookup : ℕ → DocItem → Except Unit MarketData) (h : items ≠ []) :
    extend_items items none lookup =
      ⟨.error "Неподдерживаемый тип документа", []⟩ := by
  cases items with
  | nil => exact absurd rfl h
  | cons a t => rfl

/-- C4 amended witness: a one-item list with an invalid category. -/
theorem extend_items_invalid_category_witness :
    extend_items [⟨"Цемент М500", 10, some "мешок", 250, 2500⟩] none
        (fun _ _ => .error ()) =
      ⟨.error "Неподдерживаемый тип документа", []⟩ :=
  extend_items_invalid_category _ _ (by simp)

/-- C7. An extended item built by the enrichment flow from a lookup whose
analysis text is shorter than 10 code points after stripping (in particular
empty or whitespace-only) stores `market_analysis` as absent, never as the
short string. -/
theorem extend_items_short_analysis_absent (items : List DocItem) (cat : Sheet)
    (lookup : ℕ → DocItem → Except Unit MarketData) (j : ℕ) (it : DocItem)
    (md : MarketData) (hj : items.get? j = some it)
    (hlk : lookup j it = .ok md)
    (hshort : (pyStrip md.analysis.data).length < 10) :
    ∃ l e, (extend_items items (some cat) lookup).result = .ok l ∧
      l.get? j = some e ∧ e.market_analysis = none := by
  cases items with
  | nil => simp at hj
  | cons it₀ rest =>
    obtain ⟨l, hl, -, hidx⟩ :=
      processTasks_gather_spec cat lookup (it₀ :: rest) 0
    simp only [Nat.zero_add] at hidx
    obtain ⟨e, he, hps⟩ := hidx j it hj
    obtain ⟨e', he', -, -, hshortspec⟩ :=
      process_single_item_spec cat it (lookup j it)
    rw [hps] at he'
    cases he'
    refine ⟨l, e, by simp [extend_items, hl], he, hshortspec md hlk hshort⟩

/-- C7 witness: a lookup returning a 4-letter analysis yields an extended
item with `market_analysis = none`. -/
theorem extend_items_short_analysis_absent_witness :
    ∃ l e, (extend_items [⟨"Цемент М500", 10, some "мешок", 250, 2500⟩]
        (some Sheet.materials)
        (fun _ _ => .ok ⟨some 280, some 240, "  мало "⟩)).result = .ok l ∧
      l.get? 0 = some e ∧ e.market_analysis = none :=
  extend_items_short_analysis_absent _ Sheet.materials _ 0 _
    ⟨some 280, some 240, "  мало "⟩ rfl rfl (by decide)

/-! ## Lemmas about the market-response parser -/

theorem splitOnChar_of_not_mem (sep : Char) (cs : List Char) (h : sep ∉ cs) :
    splitOnChar sep cs = [cs] := by
  induction cs with
  | nil => rfl
  | cons c rest ih =>
    have hc : c ≠ sep := fun hcs => h (hcs ▸ List.mem_cons_self c rest)
    have hr : sep ∉ rest := fun hm => h (List.mem_cons_of_mem _ hm)
    simp [splitOnChar, ih hr, hc]

theorem exceptBind_ok (a : MarketParse)
    (f : MarketParse → Except MarketParse MarketParse) :
    (Except.ok a).bind f = f a := rfl

theorem parsePriceLine_nonneg (l : List Char) (q : ℚ)
    (h : parsePriceLine l = some q) : 0 ≤ q := by
  unfold parsePriceLine at h
  split at h
  · cases h
  · unfold pyFloat at h
    split at h
    · split at h
      · cases h
      · injection h with h
        subst h
        rw [Rat.mkRat_eq_div]
        positivity
    · split at h
      · cases h
      · injection h with h
        subst h
        rw [Rat.mkRat_eq_div]
        positivity
    · cases h

/-- Both price fields of a parse state are non-negative when present. -/
def pricesNonneg (st : MarketParse) : Prop :=
  (∀ q, st.average_price = some q → 0 ≤ q) ∧
  (∀ q, st.min_price = some q → 0 ≤ q)

/-- The predicate `pricesNonneg` lifted to both sides of the loop's `Except`. -/
def epricesNonneg : Except MarketParse MarketParse → Prop
  | .ok st => pricesNonneg st
  | .error st => pricesNonneg st

theorem parseStepLine_nonneg (all : List (List Char)) (st : MarketParse)
    (raw : List Char) (h : pricesNonneg st) :
    epricesNonneg (parseStepLine all st raw) := by
  unfold parseStepLine
  split
  · cases hp : parsePriceLine (pyStrip raw) with
    | some q =>
      refine ⟨fun q' hq' => ?_, h.2⟩
      cases hq'
      exact parsePriceLine_nonneg _ _ hp
    | none => exact h
  · split
    · cases hp : parsePriceLine (pyStrip raw) with
      | some q =>
        refine ⟨h.1, fun q' hq' => ?_⟩
        cases hq'
        exact parsePriceLine_nonneg _ _ hp
      | none => exact h
    · split
      · cases hidx : findIndexEq (pyStrip raw) all with
        | none => exact h
        | some idx => exact ⟨h.1, h.2⟩
      · exact h

theorem foldl_parse_nonneg (all : List (List Char)) (lines : List (List Char))
    (acc : Except MarketParse MarketParse) (h : epricesNonneg acc) :
    epricesNonneg
      (lines.foldl (fun a raw => a.bind fun st => parseStepLine all st raw) acc) := by
  induction lines generalizing acc with
  | nil => exact h
  | cons raw rest ih =>
    apply ih
    cases acc with
    | error st => exact h
    | ok st => exact parseStepLine_nonneg all st raw h

theorem foldl_parse_no_ana (all : List (List Char)) (lines : List (List Char))
    (st : MarketParse)
    (h : ∀ raw ∈ lines, lineMatchesAna (pyStrip raw) = false) :
    ∃ st', lines.foldl
        (fun (a : Except MarketParse MarketParse) raw =>
          a.bind fun s => parseStepLine all s raw)
        (Except.ok st) = Except.ok st' ∧ st'.analysis = st.analysis := by
  induction lines generalizing st with
  | nil => exact ⟨st, rfl, rfl⟩
  | cons raw rest ih =>
    have hr := h raw (List.mem_cons_self _ _)
    have hrest : ∀ raw' ∈ rest, lineMatchesAna (pyStrip raw') = false :=
      fun r hm => h r (List.mem_cons_of_mem _ hm)
    have hstep : ∃ st₁, parseStepLine all st raw = .ok st₁ ∧
        st₁.analysis = st.analysis := by
      unfold parseStepLine
      split
      · cases parsePriceLine (pyStrip raw) with
        | some q => exact ⟨_, rfl, rfl⟩
        | none => exact ⟨_, rfl, rfl⟩
      · split
        · cases parsePriceLine (pyStrip raw) with
          | some q => exact ⟨_, rfl, rfl⟩
          | none => exact ⟨_, rfl, rfl⟩
        · split
          · rename_i hana
            rw [hr] at hana
            cases hana
          · exact ⟨_, rfl, rfl⟩
    obtain ⟨st₁, h1, h2⟩ := hstep
    obtain ⟨st', hfold, hana⟩ := ih st₁ hrest
    refine ⟨st', ?_, hana.trans h2⟩
    rw [List.foldl_cons, exceptBind_ok, h1]
    exact hfold

/-- C10. The market-response parser is total by construction; for every
input, both extracted prices are non-negative when present, and when no line
matches an analysis label the analysis field falls back to the whole
stripped input (so it is never lost). -/
theorem parse_response_safe (input : List Char) :
    (∀ q, (parse_response input).average_price = some q → 0 ≤ q) ∧
    (∀ q, (parse_response input).min_price = some q → 0 ≤ q) ∧
    ((∀ raw ∈ splitOnChar '\n' (pyStrip input),
        lineMatchesAna (pyStrip raw) = false) →
      (parse_response input).analysis = pyStrip input) := by
  have hinit : epricesNonneg (Except.ok ({} : MarketParse)) :=
    ⟨fun q hq => Option.noConfusion hq, fun q hq => Option.noConfusion hq⟩
  have hfold := foldl_parse_nonneg (splitOnChar '\n' (pyStrip input))
    (splitOnChar '\n' (pyStrip input)) (Except.ok {}) hinit
  unfold parse_response
  set res := (splitOnChar '\n' (pyStrip input)).foldl
    (fun acc raw => acc.bind fun st =>
      parseStepLine (splitOnChar '\n' (pyStrip input)) st raw)
    (Except.ok {}) with hres
  clear_value res
  refine ⟨?_, ?_, ?_⟩
  · intro q hq
    cases res with
    | error st => exact hfold.1 q hq
    | ok st =>
      dsimp only at hq
      by_cases ha : st.analysis = []
      · rw [if_pos ha] at hq
        exact hfold.1 q hq
      · rw [if_neg ha] at hq
        exact hfold.1 q hq
  · intro q hq
    cases res with
    | error st => exact hfold.2 q hq
    | ok st =>
      dsimp only at hq
      by_cases ha : st.analysis = []
      · rw [if_pos ha] at hq
        exact hfold.2 q hq
      · rw [if_neg ha] at hq
        exact hfold.2 q hq
  · intro hnoana
    obtain ⟨st', hfold', hana⟩ := foldl_parse_no_ana
      (splitOnChar '\n' (pyStrip input)) (splitOnChar '\n' (pyStrip input))
      {} hnoana
    rw [← hres] at hfold'
    rw [hfold']
    dsimp only
    rw [hana]
    simp

/-- C10 witness: a labelled response with both prices present and no
analysis label. -/
theorem parse_response_safe_witness :
    (0 : ℚ) ≤ 240 ∧
    (parse_response "МИНИМАЛЬНАЯ ЦЕНА: 240 грн".data).analysis =
      pyStrip "МИНИМАЛЬНАЯ ЦЕНА: 240 грн".data :=
  ⟨(parse_response_safe "МИНИМАЛЬНАЯ ЦЕНА: 240 грн".data).2.1 240 (by decide),
   (parse_response_safe "МИНИМАЛЬНАЯ ЦЕНА: 240 грн".data).2.2 (by decide)⟩

/-- C6 counterexample: on the line `"СРЕДНЯЯ ЦЕНА: 280 грн 300"` the claim
predicts an extracted average of 280 (the first numeric token, later numbers
ignored); the code concatenates every digit after the last colon and yields
280300. -/
theorem parse_price_counterexample :
    (parse_response "СРЕДНЯЯ ЦЕНА: 280 грн 300".data).average_price =
        some 280300 ∧
    (280300 : ℚ) ≠ 280 :=
  ⟨by decide, by decide⟩

/-- Every present price of a parse state was extracted — by
`parsePriceLine`, the after-the-last-colon digit-concatenation rule — from a
line of `lines` whose stripped form matches the corresponding label; a
minimum comes only from a line that does not also match the average label
(the average branch is checked first). -/
def pricesFromLines (lines : List (List Char)) (st : MarketParse) : Prop :=
  (∀ q, st.average_price = some q →
    ∃ L ∈ lines, lineMatchesAvg (pyStrip L) = true ∧
      parsePriceLine (pyStrip L) = some q) ∧
  (∀ q, st.min_price = some q →
    ∃ L ∈ lines, lineMatchesAvg (pyStrip L) = false ∧
      lineMatchesMin (pyStrip L) = true ∧
      parsePriceLine (pyStrip L) = some q)

/-- The predicate `pricesFromLines` lifted to both sides of the loop's
`Except`. -/
def epricesFromLines (lines : List (List Char)) :
    Except MarketParse MarketParse → Prop
  | .ok st => pricesFromLines lines st
  | .error st => pricesFromLines lines st

theorem parseStepLine_fromLines (lines : List (List Char)) (st : MarketParse)
    (raw : List Char) (hraw : raw ∈ lines) (h : pricesFromLines lines st) :
    epricesFromLines lines (parseStepLine lines st raw) := by
  unfold parseStepLine
  split
  · rename_i havg
    cases hp : parsePriceLine (pyStrip raw) with
    | some q =>
      refine ⟨fun q' hq' => ?_, h.2⟩
      cases hq'
      exact ⟨raw, hraw, havg, hp⟩
    | none => exact h
  · rename_i hnavg
    simp only [Bool.not_eq_true] at hnavg
    split
    · rename_i hmin
      cases hp : parsePriceLine (pyStrip raw) with
      | some q =>
        refine ⟨h.1, fun q' hq' => ?_⟩
        cases hq'
        exact ⟨raw, hraw, hnavg, hmin, hp⟩
      | none => exact h
    · split
      · cases hidx : findIndexEq (pyStrip raw) lines with
        | none => exact h
        | some idx => exact ⟨h.1, h.2⟩
      · exact h

theorem foldl_parse_fromLines (lines : List (List Char))
    (raws : List (List Char)) (hsub : ∀ raw ∈ raws, raw ∈ lines)
    (acc : Except MarketParse MarketParse) (h : epricesFromLines lines acc) :
    epricesFromLines lines
      (raws.foldl (fun a raw => a.bind fun st => parseStepLine lines st raw)
        acc) := by
  induction raws generalizing acc with
  | nil => exact h
  | cons raw rest ih =>
    refine ih (fun r hm => hsub r (List.mem_cons_of_mem _ hm)) _ ?_
    cases acc with
    | error st => exact h
    | ok st =>
      exact parseStepLine_fromLines lines st raw
        (hsub raw (List.mem_cons_self _ _)) h

/-- C6 amended: for every market-search response text, every price the
parser records comes from a line matching the average-price or minimum-price
label (case-insensitively, in either language; a minimum only from a line
not also matching the average label, which is checked first), and its value
is `parsePriceLine` of that stripped line: the digit, dot and comma
characters after the LAST colon, concatenated (commas read as decimal dots)
and parsed as one number — so a comma decimal separator is accepted, but
further numbers on the same line are concatenated into the extracted value,
not ignored; in particular, a response with no label-matching line yields no
price. -/
theorem parse_response_price_extraction (input : List Char) :
    (∀ q, (parse_response input).average_price = some q →
      ∃ L ∈ splitOnChar '\n' (pyStrip input),
        lineMatchesAvg (pyStrip L) = true ∧
        parsePriceLine (pyStrip L) = some q) ∧
    (∀ q, (parse_response input).min_price = some q →
      ∃ L ∈ splitOnChar '\n' (pyStrip input),
        lineMatchesAvg (pyStrip L) = false ∧
        lineMatchesMin (pyStrip L) = true ∧
        parsePriceLine (pyStrip L) = some q) := by
  have hinit : epricesFromLines (splitOnChar '\n' (pyStrip input))
      (Except.ok ({} : MarketParse)) :=
    ⟨fun q hq => Option.noConfusion hq, fun q hq => Option.noConfusion hq⟩
  have hfold := foldl_parse_fromLines (splitOnChar '\n' (pyStrip input))
    (splitOnChar '\n' (pyStrip input)) (fun _ hm => hm) (Except.ok {}) hinit
  unfold parse_response
  set res := (splitOnChar '\n' (pyStrip input)).foldl
    (fun acc raw => acc.bind fun st =>
      parseStepLine (splitOnChar '\n' (pyStrip input)) st raw)
    (Except.ok {}) with hres
  clear_value res
  constructor
  · intro q hq
    cases res with
    | error st => exact hfold.1 q hq
    | ok st =>
      dsimp only at hq
      by_cases ha : st.analysis = []
      · rw [if_pos ha] at hq
        exact hfold.1 q hq
      · rw [if_neg ha] at hq
        exact hfold.1 q hq
  · intro q hq
    cases res with
    | error st => exact hfold.2 q hq
    | ok st =>
      dsimp only at hq
      by_cases ha : st.analysis = []
      · rw [if_pos ha] at hq
        exact hfold.2 q hq
      · rw [if_neg ha] at hq
        exact hfold.2 q hq

/-- C6 amended witness: on the spec's sample response both hypotheses hold —
the recorded average is 280.5 (comma decimal separator) and the recorded
minimum is 240 — and each traces back to its labelled line. -/
theorem parse_response_price_extraction_witness :
    (∃ L ∈ splitOnChar '\n'
        (pyStrip ("СРЕДНЯЯ ЦЕНА: 280,5 грн\nМИНИМАЛЬНАЯ ЦЕНА: 240 грн\nАНАЛИЗ: test source X").data),
      lineMatchesAvg (pyStrip L) = true ∧
      parsePriceLine (pyStrip L) = some (mkRat 561 2)) ∧
    (∃ L ∈ splitOnChar '\n'
        (pyStrip ("СРЕДНЯЯ ЦЕНА: 280,5 грн\nМИНИМАЛЬНАЯ ЦЕНА: 240 грн\nАНАЛИЗ: test source X").data),
      lineMatchesAvg (pyStrip L) = false ∧
      lineMatchesMin (pyStrip L) = true ∧
      parsePriceLine (pyStrip L) = some 240) :=
  ⟨(parse_response_price_extraction
      ("СРЕДНЯЯ ЦЕНА: 280,5 грн\nМИНИМАЛЬНАЯ ЦЕНА: 240 грн\nАНАЛИЗ: test source X").data).1
      (mkRat 561 2) (by decide),
   (parse_response_price_extraction
      ("СРЕДНЯЯ ЦЕНА: 280,5 грн\nМИНИМАЛЬНАЯ ЦЕНА: 240 грн\nАНАЛИЗ: test source X").data).2
      240 (by decide)⟩

/-! ## Lemmas about the processing pipeline -/

/-- The `ProcessingResult` shape invariant of §3 of the spec: on success
exactly one of the remote url or the local artifact pair is populated (with
`is_local_processing` marking the local case); on failure all three are
absent. -/
def resultWellFormed (r : ProcessingResult) : Prop :=
  (r.success = true →
    (∃ url, url ≠ "" ∧ r.google_sheet_url = some url ∧
      r.local_excel_path = none ∧ r.local_json_path = none ∧
      r.is_local_processing = false) ∨
    (r.google_sheet_url = none ∧ (∃ xp, r.local_excel_path = some xp) ∧
      (∃ jp, r.local_json_path = some jp) ∧ r.is_local_processing = true)) ∧
  (r.success = false →
    r.google_sheet_url = none ∧ r.local_excel_path = none ∧
    r.local_json_path = none)

theorem local_storage_wf (env : PipelineEnv)
    (a : List (DocItem ⊕ ExtItem)) :
    resultWellFormed (process_with_local_storage env a).1 := by
  unfold process_with_local_storage
  split
  · simp [resultWellFormed]
  · split
    · simp [resultWellFormed]
    · split
      · simp [resultWellFormed]
      · simp [resultWellFormed]

theorem google_services_wf (env : PipelineEnv)
    (a : List (DocItem ⊕ ExtItem)) :
    resultWellFormed (process_with_google_services env a).1 := by
  unfold process_with_google_services
  split
  · exact local_storage_wf env a
  · split
    · exact local_storage_wf env a
    · split
      · exact local_storage_wf env a
      · rename_i url heq hne
        exact ⟨fun _ => Or.inl ⟨url, hne, rfl, rfl, rfl, rfl⟩,
          fun h => Bool.noConfusion h⟩

/-- C2. Every result the pipeline returns is well-formed: on success exactly
one of `google_sheet_url` or the pair (`local_excel_path`,
`local_json_path`) is populated, with `is_local_processing` true exactly in
the local case; on failure all three are absent. -/
theorem pipeline_result_well_formed (env : PipelineEnv) :
    resultWellFormed (process_document_pipeline env).1 := by
  unfold process_document_pipeline
  split
  · simp [resultWellFormed]
  · split
    · simp [resultWellFormed]
    · split
      · simp [resultWellFormed]
      · exact google_services_wf env _

/-- An oracle with everything unavailable: no Gemini, no Perplexity, no
project, no Google access, no local artifacts. -/
def envAllDown : PipelineEnv :=
  { geminiConfigured := false, analysisRaises := false, analysisItems := none,
    perplexityConfigured := false, documentType := none,
    lookup := fun _ _ => .error (), selectedProject := none,
    mapping := fun _ => none, gsClientOk := false, gsOpenOk := false,
    gsRemoteUrl := none, localWrapRaises := false, excelPath := none,
    jsonPath := none }

/-- C2 witness: the failure case of the invariant at a concrete
environment. -/
theorem pipeline_result_well_formed_witness :
    (process_document_pipeline envAllDown).1.google_sheet_url = none ∧
    (process_document_pipeline envAllDown).1.local_excel_path = none ∧
    (process_document_pipeline envAllDown).1.local_json_path = none :=
  (pipeline_result_well_formed envAllDown).2 rfl

theorem add_data_falsy_id (env : PipelineEnv) (sid : Option String)
    (h : sheetIdFalsy sid = true) :
    add_data_to_spreadsheet env sid = (none, [PEvent.gClientCreate]) := by
  cases sid with
  | none =>
    unfold add_data_to_spreadsheet
    split
    · rfl
    · rfl
  | some s =>
    have hs : s = "" := by simpa [sheetIdFalsy] using h
    subst hs
    unfold add_data_to_spreadsheet
    split
    · rfl
    · simp

theorem local_storage_events (env : PipelineEnv) (a : List (DocItem ⊕ ExtItem))
    (e : PEvent) (he : e ∈ (process_with_local_storage env a).2) :
    e = PEvent.excelWrite ∨ e = PEvent.jsonWrite := by
  unfold process_with_local_storage at he
  split at he
  · simp at he
  · split at he
    · left
      simpa using he
    · split at he
      · simpa using he
      · simpa using he

/-- C3. When the selected project's spreadsheet identifier does not resolve
to a usable id (no project selected, the project is not in the mapping, or
the stored id is falsy), the pipeline's Google step produces exactly the
local-fallback result and never opens or appends to a remote spreadsheet. -/
theorem unresolved_project_falls_back_local (env : PipelineEnv)
    (a : List (DocItem ⊕ ExtItem))
    (hun : sheetIdFalsy (resolved_sheet_id env) = true) :
    (process_with_google_services env a).1 =
      (process_with_local_storage env a).1 ∧
    ∀ e ∈ (process_with_google_services env a).2,
      (∀ sid, e ≠ PEvent.gOpenSheet sid) ∧
      (∀ sid, e ≠ PEvent.gAppendRows sid) := by
  unfold process_with_google_services
  cases hdt : env.documentType with
  | none =>
    refine ⟨rfl, ?_⟩
    intro e he
    rcases local_storage_events env a e he with h | h <;> subst h <;>
      exact ⟨fun sid hc => PEvent.noConfusion hc,
        fun sid hc => PEvent.noConfusion hc⟩
  | some dt =>
    rw [add_data_falsy_id env _ hun]
    refine ⟨rfl, ?_⟩
    intro e he
    rcases (by simpa using he :
        e = PEvent.gClientCreate ∨
          e ∈ (process_with_local_storage env a).2) with h | h
    · subst h
      exact ⟨fun sid hc => PEvent.noConfusion hc,
        fun sid hc => PEvent.noConfusion hc⟩
    · rcases local_storage_events env a e h with h' | h' <;> subst h' <;>
        exact ⟨fun sid hc => PEvent.noConfusion hc,
          fun sid hc => PEvent.noConfusion hc⟩

/-- C3 witness: a concrete environment whose project does not resolve. -/
theorem unresolved_project_falls_back_local_witness :
    (process_with_google_services envAllDown []).1 =
      (process_with_local_storage envAllDown []).1 ∧
    ∀ e ∈ (process_with_google_services envAllDown []).2,
      (∀ sid, e ≠ PEvent.gOpenSheet sid) ∧
      (∀ sid, e ≠ PEvent.gAppendRows sid) :=
  unresolved_project_falls_back_local envAllDown [] rfl

/-- C5. With no Gemini service configured the pipeline returns immediately a
failure whose message contains `"недоступен"`, with no external calls issued
(the event list is empty) and no retry. -/
theorem pipeline_no_gemini_fails_fast (env : PipelineEnv)
    (hg : env.geminiConfigured = false) :
    (process_document_pipeline env).1.success = false ∧
    (∃ m, (process_document_pipeline env).1.error_message = some m ∧
      isInfixCh "недоступен".data m.data = true) ∧
    (process_document_pipeline env).2 = [] := by
  have hres : process_document_pipeline env =
      ({ success := false,
         error_message := some "Сервис анализа документов (Gemini) недоступен" },
        []) := by
    unfold process_document_pipeline
    rw [hg]
    rfl
  rw [hres]
  exact ⟨rfl, ⟨_, rfl, by decide⟩, rfl⟩

/-- C5 witness: the fail-fast result at a concrete environment. -/
theorem pipeline_no_gemini_fails_fast_witness :
    (process_document_pipeline envAllDown).1.success = false ∧
    (∃ m, (process_document_pipeline envAllDown).1.error_message = some m ∧
      isInfixCh "недоступен".data m.data = true) ∧
    (process_document_pipeline envAllDown).2 = [] :=
  pipeline_no_gemini_fails_fast envAllDown rfl

/-! ## The upload handlers: temporary-file cleanup -/

/-- A handler run in which every transport call succeeds except the FSM
`state.get_data()` read issued after the download. -/
def handlerLeakEnv : HandlerEnv :=
  { answerRaises := false, getFileRaises := false, downloadRaises := false,
    getDataRaises := true, pipelineEnv := envAllDown, unlinkOk := true }

/-- C8 counterexample: in both upload handlers an exception raised by
`state.get_data()` — after the attachment was downloaded but before the
cleanup statement — jumps to the handler's `except` block, which never calls
`unlink`: the temporary file survives the run, so cleanup is not guaranteed
on every execution path. -/
theorem handler_cleanup_counterexample :
    (process_document_photo handlerLeakEnv).tempFileRemains = true ∧
    (process_document_file handlerLeakEnv).tempFileRemains = true :=
  ⟨rfl, rfl⟩

/-- C8 amended: the temporary file is removed on the straight-line path —
whenever no exception occurs between the download and the cleanup statement
and the `unlink` itself succeeds — regardless of the pipeline's outcome
(success or failure); the cleanup is not in a `finally`, so exception paths
in that window keep the file. -/
theorem handler_cleanup_normal_path (env : HandlerEnv)
    (hgd : env.getDataRaises = false) (hu : env.unlinkOk = true) :
    (process_document_photo env).tempFileRemains = false ∧
    (process_document_file env).tempFileRemains = false := by
  constructor
  · unfold process_document_photo
    rw [hgd, hu]
    split
    · rfl
    · split
      · rfl
      · split
        · rfl
        · simp
  · unfold process_document_file
    rw [hgd, hu]
    split
    · rfl
    · split
      · rfl
      · split
        · rfl
        · simp

/-- A handler run with no transport failures at all (the pipeline itself
fails, which must not matter for cleanup). -/
def handlerOkEnv : HandlerEnv :=
  { answerRaises := false, getFileRaises := false, downloadRaises := false,
    getDataRaises := false, pipelineEnv := envAllDown, unlinkOk := true }

/-- C8 amended witness: on a failing pipeline with a clean transport, both
handlers remove the temporary file. -/
theorem handler_cleanup_normal_path_witness :
    (process_document_photo handlerOkEnv).tempFileRemains = false ∧
    (process_document_file handlerOkEnv).tempFileRemains = false :=
  handler_cleanup_normal_path handlerOkEnv rfl rfl

/-! ## The semaphore discipline: lemmas and the concurrency bound -/

theorem countP_set_eq (p : TStatus → Bool) (l : List TStatus) (i : ℕ)
    (x y : TStatus) (h : l.get? i = some y) :
    (l.set i x).countP p + (if p y then 1 else 0) =
      l.countP p + (if p x then 1 else 0) := by
  induction l generalizing i with
  | nil => simp at h
  | cons a t ih =>
    cases i with
    | zero =>
      simp only [List.get?] at h
      cases h
      simp only [List.set_cons_zero, List.countP_cons]
      omega
    | succ i =>
      simp only [List.get?] at h
      have hrec := ih i h
      simp only [List.set_cons_succ, List.countP_cons]
      omega

theorem countP_replicate_waiting (n : ℕ) :
    (List.replicate n TStatus.waiting).countP (· == TStatus.inflight) = 0 := by
  induction n with
  | zero => rfl
  | succ n ih => simp [List.replicate_succ, List.countP_cons, ih]

theorem semReach_invariant (k n : ℕ) (s : SemState)
    (h : SemReach (semInit k n) s) :
    s.avail + inflightCount s = k ∧ s.tasks.length = n := by
  induction h with
  | refl =>
    refine ⟨?_, by simp [semInit]⟩
    simp [semInit, inflightCount, countP_replicate_waiting]
  | @step s t hreach hstep ih =>
    cases hstep with
    | acquire i hi ha =>
      have hc := countP_set_eq (· == TStatus.inflight) s.tasks i
        TStatus.inflight TStatus.waiting hi
      simp at hc
      refine ⟨?_, by simp [List.length_set, ih.2]⟩
      simp only [inflightCount] at ih ⊢
      omega
    | release i hi =>
      have hc := countP_set_eq (· == TStatus.inflight) s.tasks i
        TStatus.done TStatus.inflight hi
      simp at hc
      have hpos : 0 < s.tasks.countP (· == TStatus.inflight) :=
        List.countP_pos_iff.2 ⟨TStatus.inflight, List.get?_mem hi, rfl⟩
      refine ⟨?_, by simp [List.length_set, ih.2]⟩
      simp only [inflightCount] at ih ⊢
      omega

/-- C9. Under the `asyncio.Semaphore(max_concurrent)` discipline of
`extend_items` — every task body wrapped in `async with semaphore`, one task
per item — every reachable scheduler state has at most `k = max_concurrent`
market-client calls in flight; and (for `k ≥ 1`) the only states with no
step left are those where every task has completed, so every item is
eventually scheduled. -/
theorem semaphore_bound_and_completion (k n : ℕ) (s : SemState)
    (hreach : SemReach (semInit k n) s) :
    inflightCount s ≤ k ∧
    (1 ≤ k → SemStuck s → ∀ t ∈ s.tasks, t = TStatus.done) := by
  obtain ⟨hinv, hlen⟩ := semReach_invariant k n s hreach
  constructor
  · omega
  · intro hk hstuck t ht
    have hnoinf : inflightCount s = 0 := by
      by_contra h0
      have hpos : 0 < s.tasks.countP (· == TStatus.inflight) :=
        Nat.pos_of_ne_zero h0
      obtain ⟨a, ha, hpa⟩ := List.countP_pos_iff.1 hpos
      have haa : a = TStatus.inflight := by simpa using hpa
      subst haa
      obtain ⟨i, hi⟩ := List.mem_iff_get?.1 ha
      exact hstuck _ (SemStep.release s i hi)
    have havail : 0 < s.avail := by omega
    cases t with
    | done => rfl
    | waiting =>
      exfalso
      obtain ⟨i, hi⟩ := List.mem_iff_get?.1 ht
      exact hstuck _ (SemStep.acquire s i hi havail)
    | inflight =>
      exfalso
      obtain ⟨i, hi⟩ := List.mem_iff_get?.1 ht
      exact hstuck _ (SemStep.release s i hi)

/-- C9 witness: the bound and the completion property at the initial state
for `max_concurrent = 2` and three items. -/
theorem semaphore_bound_and_completion_witness :
    inflightCount (semInit 2 3) ≤ 2 ∧
    (1 ≤ 2 → SemStuck (semInit 2 3) →
      ∀ t ∈ (semInit 2 3).tasks, t = TStatus.done) :=
  semaphore_bound_and_completion 2 3 (semInit 2 3) SemReach.refl

end AlcoholCode
